import Mathlib

/-!
Verification development for the Pistache HTTP header module
(`src/http_header.h`): a shallow embedding of the identity-hash
subsystem, the safe-cast utility, the MIME media-type model and the
concrete header variants, together with theorems settling the spec's
claims about them.

Machine integers are embedded as `Nat` with explicit reduction
`% 2 ^ 64` (resp. `% 2 ^ 16`) where C++ unsigned overflow matters.
C strings are embedded as `List Nat` / `List Char` of the bytes before
the NUL terminator (header names contain no NUL byte).
-/

namespace Pistache

/-! ### Identity subsystem (`namespace detail`, http_header.h lines 24-36) -/

/-- `static constexpr uint64_t basis = 14695981039346656037ULL;` -/
def basis : Nat := 14695981039346656037

/-- `static constexpr uint64_t prime = 1099511628211ULL;` -/
def prime : Nat := 1099511628211

/-- Embedding of
`constexpr uint64_t hash_one(char c, const char* remain, unsigned long long value)`
`{ return c == 0 ? value : hash_one(remain[0], remain + 1, (value ^ c) * prime); }`.
The C string is the list of its bytes before the NUL terminator, so the
`c == 0` test corresponds exactly to reaching the end of the list; the
`uint64_t` arithmetic wraps, hence the `% 2 ^ 64`. -/
def hash_one : List Nat → Nat → Nat
  | [], value => value
  | c :: remain, value => hash_one remain ((value ^^^ c) * prime % 2 ^ 64)

/-- Embedding of `constexpr uint64_t hash(const char* str)`
`{ return hash_one(str[0], str + 1, basis); }`. -/
def detailHash (bytes : List Nat) : Nat := hash_one bytes basis

/-- Hash of a Lean string literal: the bytes are the character codes
(all header names are ASCII, so code points coincide with bytes). -/
def hashString (s : String) : Nat := detailHash (s.data.map Char.toNat)

/-- Spec-side definition, written from the spec's words: "starting from
basis 14695981039346656037, for each byte of s taken left-to-right, XOR
the byte into the accumulator and multiply by prime 1099511628211, all
modulo 2^64" — a left fold of the FNV-1a step over the bytes. -/
def fnv1aSpec (bytes : List Nat) : Nat :=
  bytes.foldl (fun value c => (value ^^^ c) * prime % 2 ^ 64) basis

/-! ### Content codings (`enum class Encoding`, lines 54-60) -/

inductive Encoding where
  | Gzip
  | Compress
  | Deflate
  | Identity
  | Unknown
deriving DecidableEq

/-! ### MIME enumerations (lines 103-123), exactly as declared in the
source: plain enumerations expanded from the `MIME_TYPES`,
`MIME_SUBTYPES` and `MIME_SUFFIXES` tables, with a payload-free `Ext`
member appended (and `None` before `Ext` for `Suffix`). -/

inductive MimeType where
  | Star
  | Text
  | Image
  | Audio
  | Video
  | Application
  | Message
  | Multipart
  | Ext
deriving DecidableEq

inductive MimeSubtype where
  | Star
  | Plain
  | Html
  | Xhtml
  | Xml
  | Javascript
  | Css
  | Json
  | FormUrlEncoded
  | Png
  | Gif
  | Bmp
  | Jpeg
  | Ext
deriving DecidableEq

inductive MimeSuffix where
  | Json
  | Ber
  | Der
  | Fastinfoset
  | Wbxml
  | Zip
  | Xml
  | None
  | Ext
deriving DecidableEq

/-- `class MediaType` (lines 126-156): the three public fields. -/
structure MediaType where
  top : MimeType
  sub : MimeSubtype
  suffix : MimeSuffix
deriving DecidableEq

/-- Default constructor `MediaType()` : `top(Type::Ext), sub(Subtype::Ext),
suffix(Suffix::None)`. -/
def MediaType.mkDefault : MediaType := ⟨.Ext, .Ext, .None⟩

/-- Two-argument constructor: suffix defaulted to `Suffix::None`. -/
def MediaType.mk2 (top : MimeType) (sub : MimeSubtype) : MediaType :=
  ⟨top, sub, .None⟩

/-- Embedding of `operator==(const MediaType& lhs, const MediaType& rhs)`
(lines 158-160): `lhs.top == rhs.top && lhs.sub == rhs.sub`. -/
def mediaTypeEq (lhs rhs : MediaType) : Bool :=
  lhs.top == rhs.top && lhs.sub == rhs.sub

/-! ### Concrete header variants: stored fields (lines 217-351).
Strings are `List Char`; `uint64_t` is a `Nat` (< 2^64 in any state the
program reaches); `int16_t` is an `Int`. -/

structure ContentLength where
  value_ : Nat
deriving DecidableEq

structure Host where
  host_ : List Char
  port_ : Int
deriving DecidableEq

structure UserAgent where
  ua_ : List Char
deriving DecidableEq

structure Accept where
  data : List Char
deriving DecidableEq

structure ContentEncoding where
  encoding_ : Encoding
deriving DecidableEq

structure Server where
  tokens_ : List (List Char)
deriving DecidableEq

structure ContentType where
  mime_ : MediaType
deriving DecidableEq

/-! The `NAME(header_name)` macro (lines 42-46) gives every variant
`static constexpr uint64_t Hash = detail::hash(header_name)` and
`static constexpr const char *Name = header_name`. -/

def ContentLength.Name : String := "Content-Length"
def ContentLength.Hash : Nat := hashString ContentLength.Name
def Host.Name : String := "Host"
def Host.Hash : Nat := hashString Host.Name
def UserAgent.Name : String := "User-Agent"
def UserAgent.Hash : Nat := hashString UserAgent.Name
def Accept.Name : String := "Accept"
def Accept.Hash : Nat := hashString Accept.Name
def ContentEncoding.Name : String := "Content-Encoding"
def ContentEncoding.Hash : Nat := hashString ContentEncoding.Name
def Server.Name : String := "Server"
def Server.Hash : Nat := hashString Server.Name
def ContentType.Name : String := "Content-Type"
def ContentType.Hash : Nat := hashString ContentType.Name

/-- A value of dynamic type `Header`: one of the seven concrete variants
declared in the source. A `shared_ptr<Header>` handle is embedded as the
value it points to; `static_pointer_cast` returns a handle to the same
value. -/
inductive HeaderV where
  | contentLength (h : ContentLength)
  | host (h : Host)
  | userAgent (h : UserAgent)
  | accept (h : Accept)
  | contentEncoding (h : ContentEncoding)
  | server (h : Server)
  | contentType (h : ContentType)
deriving DecidableEq

/-- The virtual `hash()` of each variant: `uint64_t hash() const
{ return Hash; }` from the `NAME` macro. -/
def HeaderV.hash : HeaderV → Nat
  | .contentLength _ => ContentLength.Hash
  | .host _ => Host.Hash
  | .userAgent _ => UserAgent.Hash
  | .accept _ => Accept.Hash
  | .contentEncoding _ => ContentEncoding.Hash
  | .server _ => Server.Hash
  | .contentType _ => ContentType.Hash

/-- The seven concrete header types, as a kind tag for stating claims
that quantify over "every concrete header type". -/
inductive HKind where
  | contentLength
  | host
  | userAgent
  | accept
  | contentEncoding
  | server
  | contentType
deriving DecidableEq

/-- The compile-time tag `To::Hash` of each concrete header type. -/
def HKind.tagOf : HKind → Nat
  | .contentLength => ContentLength.Hash
  | .host => Host.Hash
  | .userAgent => UserAgent.Hash
  | .accept => Accept.Hash
  | .contentEncoding => ContentEncoding.Hash
  | .server => Server.Hash
  | .contentType => ContentType.Hash

/-- The dynamic type of a `Header` value. -/
def HeaderV.kind : HeaderV → HKind
  | .contentLength _ => .contentLength
  | .host _ => .host
  | .userAgent _ => .userAgent
  | .accept _ => .accept
  | .contentEncoding _ => .contentEncoding
  | .server _ => .server
  | .contentType _ => .contentType

/-- Embedding of `header_cast<To>(const std::shared_ptr<Header>& from)`
(lines 200-206), parametrised by the target type's compile-time tag
`To::Hash`:
`return static_cast<To *>(0)->Hash == from->hash() ?`
`std::static_pointer_cast<To>(from) : nullptr;`
`static_pointer_cast` yields a handle sharing ownership of (pointing to)
the same value, so success returns the input value itself; `nullptr` is
`none`. -/
def header_cast (toHash : Nat) (from_ : HeaderV) : Option HeaderV :=
  if toHash = from_.hash then some from_ else none

/-- Embedding of the `const` overload
`header_cast<To>(const std::shared_ptr<const Header>& from)`
(lines 208-214): same test, `static_pointer_cast<const To>`, so the
result stays read-only; at the value level the body is identical. -/
def header_cast_const (toHash : Nat) (from_ : HeaderV) : Option HeaderV :=
  if toHash = from_.hash then some from_ else none

/-! ### `IsHeader` capability check (lines 186-197).
`IsHeader<H>::value = is_base_of<Header, H> && (test<H>(nullptr)
picks the true_type overload, i.e. decltype(H::Name) is well-formed)`.
A candidate type is embedded as the record of which of the three
relevant capabilities it has; the SFINAE test on `decltype(T::Name)`
reads `declaresName`, and nothing in `IsHeader` reads `declaresHash`. -/

structure TypeDesc where
  derivesHeader : Bool
  declaresName : Bool
  declaresHash : Bool
deriving DecidableEq

/-- Embedding of `IsHeader<H>::value`. -/
def IsHeaderValue (d : TypeDesc) : Bool :=
  d.derivesHeader && d.declaresName

/-! ### Accessors (all declared `const` in the source, lines 217-351).
Each accessor is embedded as an explicit state transformer returning the
observed value together with the object state after the call; the
source bodies only read a field (`{ return value_; }` etc.), which the
embedding renders by passing the state through unchanged. Besides these
accessors and the constructors, the variants declare only the `parse` /
`parseRaw` entry points and the `const` member `write`. -/

def ContentLength.value (s : ContentLength) : Nat × ContentLength :=
  (s.value_, s)

def Host.host (s : Host) : List Char × Host :=
  (s.host_, s)

def Host.port (s : Host) : Int × Host :=
  (s.port_, s)

def UserAgent.ua (s : UserAgent) : List Char × UserAgent :=
  (s.ua_, s)

def ContentEncoding.encoding (s : ContentEncoding) : Encoding × ContentEncoding :=
  (s.encoding_, s)

def Server.tokens (s : Server) : List (List Char) × Server :=
  (s.tokens_, s)

def ContentType.mime (s : ContentType) : MediaType × ContentType :=
  (s.mime_, s)

/-- The virtual `name()` accessor: `const char *name() const { return Name; }`. -/
def HeaderV.nameAcc (s : HeaderV) : String × HeaderV :=
  (match s with
   | .contentLength _ => ContentLength.Name
   | .host _ => Host.Name
   | .userAgent _ => UserAgent.Name
   | .accept _ => Accept.Name
   | .contentEncoding _ => ContentEncoding.Name
   | .server _ => Server.Name
   | .contentType _ => ContentType.Name, s)

/-- The virtual `hash()` accessor as a state transformer. -/
def HeaderV.hashAcc (s : HeaderV) : Nat × HeaderV :=
  (s.hash, s)

/-! ### Text helpers used by the modelled parse/write bodies -/

/-- Leading and trailing whitespace removed. -/
def trimWs (s : List Char) : List Char :=
  ((s.dropWhile Char.isWhitespace).reverse.dropWhile Char.isWhitespace).reverse

/-- Split on the first occurrence of `sep`: the part before it and,
when `sep` occurs, the part after it. -/
def splitFirst (sep : Char) : List Char → List Char × Option (List Char)
  | [] => ([], none)
  | c :: rest =>
    if c = sep then ([], some rest)
    else
      let r := splitFirst sep rest
      (c :: r.1, r.2)

/-- Split on the last occurrence of `sep`. -/
def splitLast (sep : Char) (l : List Char) : List Char × Option (List Char) :=
  match splitFirst sep l.reverse with
  | (_, none) => (l, none)
  | (rb, some ra) => (ra.reverse, some rb.reverse)

/-- Little-endian decimal digits of `n` (at least one digit). -/
def natDigitsRev (n : Nat) : List Char :=
  if n < 10 then [Char.ofNat (48 + n)]
  else Char.ofNat (48 + n % 10) :: natDigitsRev (n / 10)
decreasing_by
  exact Nat.div_lt_self (by omega) (by omega)

/-- Canonical decimal rendering of `n`: no sign, no leading zeros beyond
a single `0`. -/
def natRender (n : Nat) : List Char :=
  (natDigitsRev n).reverse

/-- Decimal rendering of a (signed) port value. -/
def intRender (p : Int) : List Char :=
  if p < 0 then '-' :: natRender (-p).toNat else natRender p.toNat

def allDigits (l : List Char) : Bool :=
  l.all Char.isDigit

/-- One step of decimal accumulation. -/
def foldStep (a : Nat) (c : Char) : Nat :=
  a * 10 + (c.toNat - '0'.toNat)

/-- One step of decimal accumulation in a `uint64_t` accumulator. -/
def foldStep64 (a : Nat) (c : Char) : Nat :=
  (a * 10 + (c.toNat - '0'.toNat)) % 2 ^ 64

/-- Plain decimal accumulation of a digit run. -/
def foldDecimal (l : List Char) : Nat :=
  l.foldl foldStep 0

/-- The `int16_t` value holding the 16 low bits of `n`. -/
def toInt16 (n : Nat) : Int :=
  let m : Nat := n % 2 ^ 16
  if m < 2 ^ 15 then (m : Int) else (m : Int) - 2 ^ 16

/-! ### Parsing and serialization of the concrete variants.
The bodies of the `parse` / `parseRaw` / `write` member functions and of
`MediaType::fromString` / `fromRaw` / `toString` are declared in
http_header.h but defined in a translation unit that is not part of the
sources; they are modelled from the spec (§4.3, §4.4, §6, §7) below,
each definition saying what is modelled. -/

/-- Modelled from the spec: body of `ContentLength::parse` (declared
line 229) is missing from the sources. Spec §4.3: "scan a run of decimal
digits into an unsigned 64-bit accumulator; any non-digit character
before the first digit, or an empty input, is a malformed-value
failure." The malformed-value error is `none`; on `none` no value object
is produced, so no half-initialized state is observable. -/
def contentLengthParse (s : List Char) : Option ContentLength :=
  match s with
  | [] => none
  | c :: _ =>
    if c.isDigit then
      some ⟨(s.takeWhile Char.isDigit).foldl foldStep64 0⟩
    else none

/-- Modelled from the spec: body of `ContentEncoding::parseRaw`
(declared line 306) is missing from the sources. Spec §4.3: "map the
trimmed token case-sensitively against the closed Encoding set; no
match maps to Unknown (never fails)." -/
def contentEncodingParseRaw (s : List Char) : ContentEncoding :=
  let t := trimWs s
  if t = "gzip".data then ⟨.Gzip⟩
  else if t = "compress".data then ⟨.Compress⟩
  else if t = "deflate".data then ⟨.Deflate⟩
  else if t = "identity".data then ⟨.Identity⟩
  else ⟨.Unknown⟩

/-! ### MIME text parsing over the enumerations as declared.
Modelled from the spec: the bodies of `MediaType::fromRaw` /
`fromString` / `toString` (declared lines 150-155) are missing from the
sources. Spec §4.4: "split on the first `/`; split the remainder on the
first `+` (if present) into subtype and suffix; map each segment against
its respective closed token table (case-sensitive); an unmatched Type or
Subtype token maps to its Ext member; an unmatched Suffix token maps to
its Ext member; an absent suffix segment maps to None." The target
enumerations here are exactly the payload-free ones the source declares
(lines 103-123). -/

/-- Token table of `MIME_TYPES` (lines 66-74), `Ext` fallback. -/
def lookupMimeType (s : List Char) : MimeType :=
  if s = "*".data then .Star
  else if s = "text".data then .Text
  else if s = "image".data then .Image
  else if s = "audio".data then .Audio
  else if s = "video".data then .Video
  else if s = "application".data then .Application
  else if s = "message".data then .Message
  else if s = "multipart".data then .Multipart
  else .Ext

/-- Token table of `MIME_SUBTYPES` (lines 76-91), `Ext` fallback. -/
def lookupMimeSubtype (s : List Char) : MimeSubtype :=
  if s = "*".data then .Star
  else if s = "plain".data then .Plain
  else if s = "html".data then .Html
  else if s = "xhtml".data then .Xhtml
  else if s = "xml".data then .Xml
  else if s = "javascript".data then .Javascript
  else if s = "css".data then .Css
  else if s = "json".data then .Json
  else if s = "x-www-form-urlencoded".data then .FormUrlEncoded
  else if s = "png".data then .Png
  else if s = "gif".data then .Gif
  else if s = "bmp".data then .Bmp
  else if s = "jpeg".data then .Jpeg
  else .Ext

/-- Token table of `MIME_SUFFIXES` (lines 93-100), `Ext` fallback. -/
def lookupMimeSuffix (s : List Char) : MimeSuffix :=
  if s = "json".data then .Json
  else if s = "ber".data then .Ber
  else if s = "der".data then .Der
  else if s = "fastinfoset".data then .Fastinfoset
  else if s = "wbxml".data then .Wbxml
  else if s = "zip".data then .Zip
  else if s = "xml".data then .Xml
  else .Ext

/-- Modelled from the spec (§4.4 algorithm) over the enumerations as
declared in the source: `MediaType::fromRaw`. -/
def mediaTypeFromRaw (s : List Char) : MediaType :=
  let topSplit := splitFirst '/' s
  let subSuffix := match topSplit.2 with
    | none => []
    | some r => r
  let subSplit := splitFirst '+' subSuffix
  ⟨lookupMimeType topSplit.1,
   lookupMimeSubtype subSplit.1,
   match subSplit.2 with
   | none => .None
   | some t => lookupMimeSuffix t⟩

/-! ### Writers and the remaining parsers (modelled from the spec).
The `write` bodies are declared `const` in http_header.h but defined in
the missing translation unit; they are modelled from the wire-format
contracts of spec §6. -/

/-- Modelled from the spec: `encodingString` (declared line 62, body
missing). Spec §6: the lowercase literal matching the Encoding member;
for `Unknown` the spec leaves the policy open and suggests the literal
"unknown", which is the policy adopted here. -/
def encodingString : Encoding → List Char
  | .Gzip => "gzip".data
  | .Compress => "compress".data
  | .Deflate => "deflate".data
  | .Identity => "identity".data
  | .Unknown => "unknown".data

/-- Modelled from the spec: `ContentEncoding::write` serializes the
encoding literal (§6). -/
def contentEncodingWrite (x : ContentEncoding) : List Char :=
  encodingString x.encoding_

/-- Modelled from the spec: `ContentLength::write` serializes the value
as ASCII decimal digits, no leading zeros beyond a single `0`, no sign
(§6). -/
def contentLengthWrite (x : ContentLength) : List Char :=
  natRender x.value_

/-- Modelled from the spec: `Host::write` serializes `"<host>"`, or
`"<host>:<port>"` when the port is not the absent-sentinel -1 (§6). -/
def hostWrite (x : Host) : List Char :=
  x.host_ ++ (if x.port_ = -1 then [] else ':' :: intRender x.port_)

/-- Modelled from the spec: `Host::parse` (declared line 252, body
missing). Spec §4.3: "split on the last `:` if present; left portion is
the host, right portion (if present and all-digit) is parsed as the
port; absence of `:` leaves port at sentinel -1"; §7 makes a malformed
port a structural failure, reported here as `none`. -/
def hostParse (s : List Char) : Option Host :=
  match splitLast ':' s with
  | (h, none) => some ⟨h, -1⟩
  | (h, some portTok) =>
    if portTok ≠ [] ∧ allDigits portTok = true then
      some ⟨h, toInt16 (foldDecimal portTok)⟩
    else none

/-- Tokens joined by a single space, order preserved (spec §6). -/
def joinSpace : List (List Char) → List Char
  | [] => []
  | [t] => t
  | t :: rest => t ++ ' ' :: joinSpace rest

/-- Modelled from the spec: `Server::write` (§6). -/
def serverWrite (x : Server) : List Char :=
  joinSpace x.tokens_

def notWs (c : Char) : Bool :=
  !c.isWhitespace

/-- Split on whitespace into the ordered sequence of maximal
whitespace-free tokens. -/
def splitWs (l : List Char) : List (List Char) :=
  match l with
  | [] => []
  | c :: rest =>
    if c.isWhitespace then splitWs rest
    else (c :: rest.takeWhile notWs) :: splitWs (rest.dropWhile notWs)
termination_by l.length
decreasing_by
  · simp only [List.length_cons]
    omega
  · simp only [List.length_cons]
    have : (rest.dropWhile notWs).length ≤ rest.length := by
      induction rest with
      | nil => simp [List.dropWhile]
      | cons d ds ih =>
        rw [List.dropWhile_cons]
        by_cases hd : notWs d
        · simp only [hd, if_true]
          simp only [List.length_cons]
          omega
        · simp [hd]
    omega

/-- Modelled from the spec: `Server::parse` (declared line 325, body
missing). Spec §4.3: "split on whitespace into an ordered sequence of
tokens, preserving original order". -/
def serverParse (s : List Char) : Server :=
  ⟨splitWs s⟩

/-! ### The spec's repaired MIME model (used to settle the round-trip
claim). Modelled from the spec: §4.4 "implementations must therefore
model Type/Subtype/Suffix as tagged unions with a string payload on the
Ext/'other' arm"; the token tables, the `toString` rendering
(`"<top>/<sub>"`, appending `"+<suffix>"` only when suffix is not None,
§4.4) and the from-text algorithm are the spec's. -/

inductive MimeTypeS where
  | Star
  | Text
  | Image
  | Audio
  | Video
  | Application
  | Message
  | Multipart
  | Ext (payload : List Char)
deriving DecidableEq

inductive MimeSubtypeS where
  | Star
  | Plain
  | Html
  | Xhtml
  | Xml
  | Javascript
  | Css
  | Json
  | FormUrlEncoded
  | Png
  | Gif
  | Bmp
  | Jpeg
  | Ext (payload : List Char)
deriving DecidableEq

inductive MimeSuffixS where
  | Json
  | Ber
  | Der
  | Fastinfoset
  | Wbxml
  | Zip
  | Xml
  | None
  | Ext (payload : List Char)
deriving DecidableEq

def printTypeS : MimeTypeS → List Char
  | .Star => "*".data
  | .Text => "text".data
  | .Image => "image".data
  | .Audio => "audio".data
  | .Video => "video".data
  | .Application => "application".data
  | .Message => "message".data
  | .Multipart => "multipart".data
  | .Ext p => p

def parseTypeS (s : List Char) : MimeTypeS :=
  if s = "*".data then .Star
  else if s = "text".data then .Text
  else if s = "image".data then .Image
  else if s = "audio".data then .Audio
  else if s = "video".data then .Video
  else if s = "application".data then .Application
  else if s = "message".data then .Message
  else if s = "multipart".data then .Multipart
  else .Ext s

def printSubtypeS : MimeSubtypeS → List Char
  | .Star => "*".data
  | .Plain => "plain".data
  | .Html => "html".data
  | .Xhtml => "xhtml".data
  | .Xml => "xml".data
  | .Javascript => "javascript".data
  | .Css => "css".data
  | .Json => "json".data
  | .FormUrlEncoded => "x-www-form-urlencoded".data
  | .Png => "png".data
  | .Gif => "gif".data
  | .Bmp => "bmp".data
  | .Jpeg => "jpeg".data
  | .Ext p => p

def parseSubtypeS (s : List Char) : MimeSubtypeS :=
  if s = "*".data then .Star
  else if s = "plain".data then .Plain
  else if s = "html".data then .Html
  else if s = "xhtml".data then .Xhtml
  else if s = "xml".data then .Xml
  else if s = "javascript".data then .Javascript
  else if s = "css".data then .Css
  else if s = "json".data then .Json
  else if s = "x-www-form-urlencoded".data then .FormUrlEncoded
  else if s = "png".data then .Png
  else if s = "gif".data then .Gif
  else if s = "bmp".data then .Bmp
  else if s = "jpeg".data then .Jpeg
  else .Ext s

def printSuffixS : MimeSuffixS → List Char
  | .Json => "json".data
  | .Ber => "ber".data
  | .Der => "der".data
  | .Fastinfoset => "fastinfoset".data
  | .Wbxml => "wbxml".data
  | .Zip => "zip".data
  | .Xml => "xml".data
  | .None => []
  | .Ext p => p

def parseSuffixS (s : List Char) : MimeSuffixS :=
  if s = "json".data then .Json
  else if s = "ber".data then .Ber
  else if s = "der".data then .Der
  else if s = "fastinfoset".data then .Fastinfoset
  else if s = "wbxml".data then .Wbxml
  else if s = "zip".data then .Zip
  else if s = "xml".data then .Xml
  else .Ext s

structure MediaTypeS where
  top : MimeTypeS
  sub : MimeSubtypeS
  suffix : MimeSuffixS
deriving DecidableEq

/-- `toString()`: renders `"<top>/<sub>"`, appending `"+<suffix>"` only
when suffix is not None (spec §4.4). -/
def mediaTypeSToString (m : MediaTypeS) : List Char :=
  printTypeS m.top
    ++ ('/' :: (printSubtypeS m.sub
    ++ (if m.suffix = .None then [] else '+' :: printSuffixS m.suffix)))

/-- `fromString`: the §4.4 algorithm over the payload-carrying model. -/
def mediaTypeSFromString (s : List Char) : MediaTypeS :=
  let topSplit := splitFirst '/' s
  let subSuffix := match topSplit.2 with
    | none => []
    | some r => r
  let subSplit := splitFirst '+' subSuffix
  ⟨parseTypeS topSplit.1,
   parseSubtypeS subSplit.1,
   match subSplit.2 with
   | none => .None
   | some t => parseSuffixS t⟩

/-- The suffix-insensitive `MediaType` equality transported to the
payload-carrying model (source lines 158-160). -/
def mediaTypeSEq (a b : MediaTypeS) : Bool :=
  a.top == b.top && a.sub == b.sub

/-- `ContentType` over the repaired media-type model. -/
structure ContentTypeS where
  mime_ : MediaTypeS
deriving DecidableEq

/-- Modelled from the spec: `ContentType::write` delegates to
`MediaType::toString` (§6). -/
def contentTypeWrite (x : ContentTypeS) : List Char :=
  mediaTypeSToString x.mime_

/-- Modelled from the spec: `ContentType::parseRaw` delegates to
MediaType text parsing (§4.3). -/
def contentTypeParseRaw (s : List Char) : ContentTypeS :=
  ⟨mediaTypeSFromString s⟩

/-- Equality of `ContentType` values: their media types compare equal
under the type's own (suffix-insensitive) equality rule. -/
def contentTypeEq (a b : ContentTypeS) : Bool :=
  mediaTypeSEq a.mime_ b.mime_

/-! ## Theorems -/

/-! ### Helper lemmas: hashing -/

theorem hash_one_eq_foldl (bytes : List Nat) (value : Nat) :
    hash_one bytes value
      = bytes.foldl (fun v c => (v ^^^ c) * prime % 2 ^ 64) value := by
  induction bytes generalizing value with
  | nil => rfl
  | cons c rest ih => simp [hash_one, List.foldl, ih]

/-! ### Helper lemmas: cast and tags -/

theorem header_cast_some_iff (toHash : Nat) (h : HeaderV) :
    header_cast toHash h = some h ↔ toHash = h.hash := by
  unfold header_cast
  by_cases hc : toHash = h.hash <;> simp [hc]

theorem header_cast_none_iff (toHash : Nat) (h : HeaderV) :
    header_cast toHash h = none ↔ toHash ≠ h.hash := by
  unfold header_cast
  by_cases hc : toHash = h.hash <;> simp [hc]

theorem hash_eq_kind_tag (h : HeaderV) : h.hash = h.kind.tagOf := by
  cases h <;> rfl

theorem tagOf_injective (k₁ k₂ : HKind) (h : k₁.tagOf = k₂.tagOf) : k₁ = k₂ := by
  cases k₁ <;> cases k₂ <;> first | rfl | (exact absurd h (by decide))

/-! ### Helper lemmas: list splitting -/

theorem splitFirst_of_not_mem (sep : Char) (l : List Char) (h : sep ∉ l) :
    splitFirst sep l = (l, none) := by
  induction l with
  | nil => rfl
  | cons c rest ih =>
    simp only [List.mem_cons, not_or] at h
    simp only [splitFirst, if_neg (fun e : c = sep => h.1 e.symm), ih h.2]

theorem splitFirst_append (sep : Char) (a b : List Char) (h : sep ∉ a) :
    splitFirst sep (a ++ sep :: b) = (a, some b) := by
  induction a with
  | nil => simp [splitFirst]
  | cons c rest ih =>
    simp only [List.mem_cons, not_or] at h
    simp only [List.cons_append, splitFirst,
      if_neg (fun e : c = sep => h.1 e.symm)]
    rw [show rest.append (sep :: b) = rest ++ sep :: b from rfl, ih h.2]

theorem splitLast_of_not_mem (sep : Char) (l : List Char) (h : sep ∉ l) :
    splitLast sep l = (l, none) := by
  unfold splitLast
  rw [splitFirst_of_not_mem sep l.reverse (by simpa using h)]

theorem splitLast_append (sep : Char) (a b : List Char) (hb : sep ∉ b) :
    splitLast sep (a ++ sep :: b) = (a, some b) := by
  unfold splitLast
  have hrev : (a ++ sep :: b).reverse = b.reverse ++ sep :: a.reverse := by
    simp
  rw [hrev, splitFirst_append sep _ _ (by simpa using hb)]
  simp

/-! ### Helper lemmas: takeWhile and dropWhile -/

theorem takeWhile_of_all (p : Char → Bool) (l : List Char)
    (h : ∀ c ∈ l, p c = true) : l.takeWhile p = l :=
  List.takeWhile_eq_self_iff.mpr h

theorem dropWhile_of_all (p : Char → Bool) (l : List Char)
    (h : ∀ c ∈ l, p c = true) : l.dropWhile p = [] :=
  List.dropWhile_eq_nil_iff.mpr h

theorem takeWhile_append_of_all (p : Char → Bool) (a b : List Char)
    (h : ∀ c ∈ a, p c = true) :
    (a ++ b).takeWhile p = a ++ b.takeWhile p := by
  induction a with
  | nil => simp
  | cons c rest ih =>
    have hc : p c = true := h c (List.mem_cons_self c rest)
    simp only [List.cons_append, List.takeWhile_cons, hc, if_true]
    rw [ih (fun d hd => h d (List.mem_cons_of_mem c hd))]

theorem dropWhile_append_of_all (p : Char → Bool) (a b : List Char)
    (h : ∀ c ∈ a, p c = true) :
    (a ++ b).dropWhile p = b.dropWhile p := by
  induction a with
  | nil => simp
  | cons c rest ih =>
    have hc : p c = true := h c (List.mem_cons_self c rest)
    simp only [List.cons_append, List.dropWhile_cons, hc, if_true]
    exact ih (fun d hd => h d (List.mem_cons_of_mem c hd))

/-! ### Helper lemmas: decimal rendering and accumulation -/

theorem char_digit_val {d : Nat} (h : d < 10) :
    (Char.ofNat (48 + d)).toNat - '0'.toNat = d := by
  interval_cases d <;> decide

theorem char_digit_isDigit {d : Nat} (h : d < 10) :
    (Char.ofNat (48 + d)).isDigit = true := by
  interval_cases d <;> decide

theorem natDigitsRev_ne_nil (n : Nat) : natDigitsRev n ≠ [] := by
  unfold natDigitsRev
  split <;> simp

theorem natDigitsRev_all_digits (n : Nat) :
    ∀ c ∈ natDigitsRev n, c.isDigit = true := by
  induction n using Nat.strong_induction_on with
  | _ n ih =>
    unfold natDigitsRev
    split
    case isTrue h =>
      intro c hc
      simp only [List.mem_singleton] at hc
      subst hc
      exact char_digit_isDigit h
    case isFalse h =>
      intro c hc
      rcases List.mem_cons.mp hc with rfl | hmem
      · exact char_digit_isDigit (Nat.mod_lt _ (by omega))
      · exact ih (n / 10) (Nat.div_lt_self (by omega) (by omega)) c hmem

theorem foldl_natDigits (n : Nat) :
    ∀ acc, (natDigitsRev n).reverse.foldl foldStep acc
      = acc * 10 ^ (natDigitsRev n).length + n := by
  induction n using Nat.strong_induction_on with
  | _ n ih =>
    intro acc
    unfold natDigitsRev
    split
    case isTrue h =>
      simp only [List.reverse_singleton, List.foldl, foldStep,
        char_digit_val h, List.length_singleton, pow_one]
    case isFalse h =>
      rw [List.reverse_cons, List.foldl_append,
        ih (n / 10) (Nat.div_lt_self (by omega) (by omega)) acc]
      simp only [List.foldl, foldStep,
        char_digit_val (show n % 10 < 10 from Nat.mod_lt _ (by omega)),
        List.length_cons]
      rw [pow_succ, ← mul_assoc]
      have hdm := Nat.div_add_mod n 10
      omega

theorem natRender_ne_nil (n : Nat) : natRender n ≠ [] := by
  unfold natRender
  simp [natDigitsRev_ne_nil]

theorem natRender_all_digits (n : Nat) :
    ∀ c ∈ natRender n, c.isDigit = true := by
  intro c hc
  exact natDigitsRev_all_digits n c (List.mem_reverse.mp hc)

theorem foldDecimal_natRender (n : Nat) : foldDecimal (natRender n) = n := by
  unfold foldDecimal natRender
  rw [foldl_natDigits n 0]
  simp

theorem foldl64_eq_mod (l : List Char) (a : Nat) :
    l.foldl foldStep64 (a % 2 ^ 64) = (l.foldl foldStep a) % 2 ^ 64 := by
  induction l generalizing a with
  | nil => simp
  | cons c rest ih =>
    simp only [List.foldl]
    have hstep : foldStep64 (a % 2 ^ 64) c = (foldStep a c) % 2 ^ 64 := by
      unfold foldStep64 foldStep
      have hM : (2 : Nat) ^ 64 = 18446744073709551616 := by norm_num
      rw [hM]
      omega
    rw [hstep]
    exact ih (foldStep a c)

theorem contentLengthParse_natRender (n : Nat) (h : n < 2 ^ 64) :
    contentLengthParse (natRender n) = some ⟨n⟩ := by
  have hall := natRender_all_digits n
  have hfold : (natRender n).foldl foldStep64 0 = n := by
    have h0 : (0 : Nat) = 0 % 2 ^ 64 := by norm_num
    rw [h0, foldl64_eq_mod]
    have hplain := foldl_natDigits n 0
    unfold natRender
    rw [hplain]
    simp only [zero_mul, zero_add]
    exact Nat.mod_eq_of_lt h
  unfold contentLengthParse
  cases hrev : natRender n with
  | nil => exact absurd hrev (natRender_ne_nil n)
  | cons c rest =>
    have hdig : c.isDigit = true := by
      apply hall
      rw [hrev]
      exact List.mem_cons_self c rest
    simp only [hdig, if_true]
    rw [takeWhile_of_all Char.isDigit (c :: rest) (by rw [← hrev]; exact hall),
      ← hrev, hfold]

/-! ### Helper lemmas: Host round trip -/

theorem intRender_nonneg (p : Int) (h : 0 ≤ p) :
    intRender p = natRender p.toNat := by
  unfold intRender
  rw [if_neg (by omega)]

theorem toInt16_toNat (p : Int) (h0 : 0 ≤ p) (h1 : p < 2 ^ 15) :
    toInt16 p.toNat = p := by
  unfold toInt16
  have hlt : p.toNat % 2 ^ 16 = p.toNat := Nat.mod_eq_of_lt (by omega)
  rw [hlt, if_pos (by omega)]
  omega

theorem hostParse_hostWrite (h : List Char) (p : Int) (hc : ':' ∉ h)
    (hp : p = -1 ∨ (0 ≤ p ∧ p < 2 ^ 15)) :
    hostParse (hostWrite ⟨h, p⟩) = some ⟨h, p⟩ := by
  rcases hp with rfl | ⟨hp0, hp1⟩
  · have hw : hostWrite ⟨h, -1⟩ = h := by
      unfold hostWrite
      simp
    rw [hw]
    unfold hostParse
    rw [splitLast_of_not_mem ':' h hc]
  · have hpne : p ≠ -1 := by omega
    have hw : hostWrite ⟨h, p⟩ = h ++ ':' :: natRender p.toNat := by
      unfold hostWrite
      rw [if_neg hpne, intRender_nonneg p hp0]
    rw [hw]
    have hdigs := natRender_all_digits p.toNat
    have hnc : ':' ∉ natRender p.toNat := by
      intro hmem
      exact absurd (hdigs ':' hmem) (by decide)
    unfold hostParse
    rw [splitLast_append ':' h _ hnc]
    have hcond : natRender p.toNat ≠ []
        ∧ allDigits (natRender p.toNat) = true := by
      refine ⟨natRender_ne_nil _, ?_⟩
      unfold allDigits
      rw [List.all_eq_true]
      intro x hx
      simpa using hdigs x hx
    show (if natRender p.toNat ≠ [] ∧ allDigits (natRender p.toNat) = true
      then some (⟨h, toInt16 (foldDecimal (natRender p.toNat))⟩ : Host) else none)
        = some (⟨h, p⟩ : Host)
    rw [if_pos hcond, foldDecimal_natRender, toInt16_toNat p hp0 hp1]

/-! ### Helper lemmas: Server round trip -/

theorem splitWs_nil : splitWs [] = [] := by
  unfold splitWs
  rfl

theorem splitWs_cons (c : Char) (rest : List Char) :
    splitWs (c :: rest)
      = if c.isWhitespace then splitWs rest
        else (c :: rest.takeWhile notWs) :: splitWs (rest.dropWhile notWs) := by
  conv_lhs => rw [splitWs.eq_def]

theorem splitWs_token (t rem : List Char) (ht : t ≠ [])
    (hall : ∀ c ∈ t, c.isWhitespace = false) :
    splitWs (t ++ ' ' :: rem) = t :: splitWs rem := by
  obtain ⟨c, t', rfl⟩ := List.exists_cons_of_ne_nil ht
  have hc : c.isWhitespace = false := hall c (List.mem_cons_self c t')
  have ht' : ∀ d ∈ t', notWs d = true := by
    intro d hd
    unfold notWs
    rw [hall d (List.mem_cons_of_mem c hd)]
    rfl
  rw [List.cons_append, splitWs_cons, if_neg (by simp [hc])]
  rw [takeWhile_append_of_all notWs t' _ ht',
    dropWhile_append_of_all notWs t' _ ht']
  rw [List.takeWhile_cons, List.dropWhile_cons,
    if_neg (by decide : ¬(notWs ' ' = true)),
    if_neg (by decide : ¬(notWs ' ' = true)),
    List.append_nil, splitWs_cons, if_pos (by decide : ' '.isWhitespace = true)]

theorem splitWs_single (t : List Char) (ht : t ≠ [])
    (hall : ∀ c ∈ t, c.isWhitespace = false) :
    splitWs t = [t] := by
  obtain ⟨c, t', rfl⟩ := List.exists_cons_of_ne_nil ht
  have hc : c.isWhitespace = false := hall c (List.mem_cons_self c t')
  have ht' : ∀ d ∈ t', notWs d = true := by
    intro d hd
    unfold notWs
    rw [hall d (List.mem_cons_of_mem c hd)]
    rfl
  rw [splitWs_cons, if_neg (by simp [hc]),
    takeWhile_of_all notWs t' ht', dropWhile_of_all notWs t' ht', splitWs_nil]

theorem splitWs_joinSpace (ts : List (List Char))
    (h : ∀ t ∈ ts, t ≠ [] ∧ ∀ c ∈ t, c.isWhitespace = false) :
    splitWs (joinSpace ts) = ts := by
  induction ts with
  | nil => exact splitWs_nil
  | cons t rest ih =>
    have hht := h t (List.mem_cons_self t rest)
    cases rest with
    | nil => exact splitWs_single t hht.1 hht.2
    | cons r rs =>
      have hjoin : joinSpace (t :: r :: rs) = t ++ ' ' :: joinSpace (r :: rs) := rfl
      rw [hjoin, splitWs_token t _ hht.1 hht.2,
        ih (fun u hu => h u (List.mem_cons_of_mem t hu))]

/-! ### Helper lemmas: media-type and encoding round trips -/

theorem mediaTypeS_roundtrip (m : MediaTypeS)
    (h1 : '/' ∉ printTypeS m.top)
    (h2 : parseTypeS (printTypeS m.top) = m.top)
    (h3 : '+' ∉ printSubtypeS m.sub)
    (h4 : parseSubtypeS (printSubtypeS m.sub) = m.sub) :
    mediaTypeSEq (mediaTypeSFromString (mediaTypeSToString m)) m = true := by
  unfold mediaTypeSToString
  by_cases hs : m.suffix = .None
  · rw [if_pos hs, List.append_nil]
    unfold mediaTypeSFromString
    rw [splitFirst_append '/' _ _ h1]
    simp only [splitFirst_of_not_mem '+' _ h3, h2, h4, mediaTypeSEq]
    simp
  · rw [if_neg hs]
    unfold mediaTypeSFromString
    rw [splitFirst_append '/' _ _ h1]
    simp only [splitFirst_append '+' _ _ h3, h2, h4, mediaTypeSEq]
    simp

theorem encoding_roundtrip (e : Encoding) :
    contentEncodingParseRaw (contentEncodingWrite ⟨e⟩) = ⟨e⟩ := by
  cases e <;> decide

/-! ### Claim theorems -/

/-- **C3.** For every NUL-terminated string (embedded as its list of
bytes before the NUL), `detail::hash` computes exactly the 64-bit FNV-1a
hash: basis 14695981039346656037, fold left-to-right XOR-then-multiply by
prime 1099511628211, modulo 2^64. -/
theorem detailHash_eq_fnv1a (bytes : List Nat) :
    detailHash bytes = fnv1aSpec bytes :=
  hash_one_eq_foldl bytes basis

/-- **C1.** `header_cast<To>` applied to a shared header handle returns
the handle itself, cast to the target type (`some h`: non-null, sharing
ownership), exactly when the handle's runtime tag `h->hash()` equals the
target's compile-time tag `To::Hash`; otherwise it returns null
(`none`). The function is total in all arguments (never throws), and the
overload for `shared_ptr<const Header>` computes the same result,
read-only in, read-only out. -/
theorem header_cast_correct (toHash : Nat) (h : HeaderV) :
    (header_cast toHash h = some h ↔ toHash = h.hash)
    ∧ (header_cast toHash h = none ↔ toHash ≠ h.hash)
    ∧ header_cast_const toHash h = header_cast toHash h :=
  ⟨header_cast_some_iff toHash h, header_cast_none_iff toHash h, rfl⟩

/-- **C2.** The identity tags of the seven concrete header types,
each `detail::hash` of the type's name string, are pairwise distinct;
consequently `header_cast<H>` on a handle whose dynamic type is `H`
returns the original handle, and on a handle of any of the other six
concrete variants returns null. -/
theorem header_tags_distinct :
    (∀ k₁ k₂ : HKind, k₁.tagOf = k₂.tagOf → k₁ = k₂)
    ∧ (∀ (k : HKind) (h : HeaderV), header_cast k.tagOf h = some h ↔ h.kind = k)
    ∧ (∀ (k : HKind) (h : HeaderV), h.kind ≠ k → header_cast k.tagOf h = none) := by
  refine ⟨tagOf_injective, ?_, ?_⟩
  · intro k h
    rw [header_cast_some_iff, hash_eq_kind_tag]
    exact ⟨fun e => (tagOf_injective _ _ e).symm, fun e => by rw [e]⟩
  · intro k h hne
    rw [header_cast_none_iff, hash_eq_kind_tag]
    exact fun e => hne (tagOf_injective _ _ e).symm

/-- Witness for C2 at concrete inputs: tag injectivity applied at
`host = host`, and a cast of a `Host` value to `ContentLength`
returning null. -/
theorem header_tags_distinct_witness :
    HKind.host = HKind.host
    ∧ header_cast HKind.contentLength.tagOf (HeaderV.host ⟨[], -1⟩) = none :=
  ⟨header_tags_distinct.1 .host .host rfl,
   header_tags_distinct.2.2 .contentLength (.host ⟨[], -1⟩) (by decide)⟩

/-- **C5.** `MediaType` equality compares only the `top` and `sub`
fields: `a == b` iff `a.top == b.top && a.sub == b.sub`; the suffix is
excluded, so `MediaType{Application, Json, Json}` equals
`MediaType{Application, Json, None}`. -/
theorem mediaTypeEq_ignores_suffix :
    (∀ a b : MediaType, mediaTypeEq a b = true ↔ a.top = b.top ∧ a.sub = b.sub)
    ∧ mediaTypeEq ⟨.Application, .Json, .Json⟩ ⟨.Application, .Json, .None⟩ = true := by
  refine ⟨fun a b => ?_, by decide⟩
  simp [mediaTypeEq, Bool.and_eq_true, beq_iff_eq]

/-- **C10.** `IsHeader<H>::value` is true exactly when `H` derives from
`Header` and declares a static member `Name`; it does not consult
whether `H` declares a `Hash` tag, so a `Header`-derived type with a
`Name` but no `Hash` passes the capability gate. -/
theorem isHeader_capability :
    (∀ d : TypeDesc,
      IsHeaderValue d = true ↔ (d.derivesHeader = true ∧ d.declaresName = true))
    ∧ IsHeaderValue ⟨true, true, false⟩ = true :=
  ⟨fun d => by simp [IsHeaderValue], rfl⟩

/-- **C9.** After construction and parsing, every accessor of the
concrete header variants (`value`, `host`, `port`, `ua`, `encoding`,
`tokens`, `mime`, `name`, `hash` — all declared `const` in the source)
leaves the variant's stored fields unchanged: the state after the call
equals the state before it, so a parsed header may be shared read-only;
no variant declares any mutating operation besides the parse entry
points. -/
theorem accessors_preserve_state :
    (∀ s : ContentLength, s.value.2 = s)
    ∧ (∀ s : Host, s.host.2 = s ∧ s.port.2 = s)
    ∧ (∀ s : UserAgent, s.ua.2 = s)
    ∧ (∀ s : ContentEncoding, s.encoding.2 = s)
    ∧ (∀ s : Server, s.tokens.2 = s)
    ∧ (∀ s : ContentType, s.mime.2 = s)
    ∧ (∀ s : HeaderV, s.nameAcc.2 = s ∧ s.hashAcc.2 = s) :=
  ⟨fun _ => rfl, fun _ => ⟨rfl, rfl⟩, fun _ => rfl, fun _ => rfl,
   fun _ => rfl, fun _ => rfl, fun _ => ⟨rfl, rfl⟩⟩

/-- **C7.** `ContentLength::parse` accepts a run of decimal digits:
`parse("12345")` yields the value 12345; `parse("abc")` and `parse("")`
report the malformed-value error (`none`), producing no value object at
all. -/
theorem contentLength_parse_cases :
    contentLengthParse "12345".data = some ⟨12345⟩
    ∧ contentLengthParse "abc".data = none
    ∧ contentLengthParse "".data = none := by
  refine ⟨by decide, by decide, rfl⟩

/-- **C8.** `ContentEncoding::parseRaw` is total (never reports an
error): `parseRaw("gzip")` yields `Gzip`, `parseRaw("brotli")` yields
`Unknown`, and every input whose trimmed token is outside the closed set
{gzip, compress, deflate, identity} yields `Unknown`. -/
theorem contentEncoding_parseRaw_total :
    contentEncodingParseRaw "gzip".data = ⟨.Gzip⟩
    ∧ contentEncodingParseRaw "brotli".data = ⟨.Unknown⟩
    ∧ (∀ s : List Char,
        trimWs s ∉ ["gzip".data, "compress".data, "deflate".data, "identity".data] →
        contentEncodingParseRaw s = ⟨.Unknown⟩) := by
  refine ⟨by decide, by decide, fun s h => ?_⟩
  simp only [List.mem_cons, List.not_mem_nil, or_false, not_or] at h
  obtain ⟨h1, h2, h3, h4⟩ := h
  simp [contentEncodingParseRaw, h1, h2, h3, h4]

/-- Witness for C8 at a concrete input: "brotli" is outside the closed
set and maps to `Unknown`. -/
theorem contentEncoding_parseRaw_total_witness :
    trimWs "brotli".data
      ∉ ["gzip".data, "compress".data, "deflate".data, "identity".data]
    ∧ contentEncodingParseRaw "brotli".data = ⟨.Unknown⟩ :=
  ⟨by decide, contentEncoding_parseRaw_total.2.2 "brotli".data (by decide)⟩

/-- **C4.** The enumerations as declared give `Ext` no payload, so the
parse collapses every unrecognized token to the same value: the two
distinct inputs "application/vnd.a" and "application/vnd.b" parse to the
identical `MediaType` value `⟨Application, Ext, None⟩`. No serialization
of that value can reproduce both original texts, so unknown tokens
cannot round-trip through the declared Ext members, contrary to the
claimed payload-carrying behavior. -/
theorem mime_ext_collapses :
    mediaTypeFromRaw "application/vnd.a".data
      = mediaTypeFromRaw "application/vnd.b".data
    ∧ mediaTypeFromRaw "application/vnd.a".data = ⟨.Application, .Ext, .None⟩ := by
  refine ⟨by decide, by decide⟩

/-- Counterexample for C6 as stated: the `Server` value holding the
single token "a b" (constructible via `Server`'s public token-vector
constructor) serializes to `"a b"`, which parses back to the two tokens
`["a", "b"]`, not to the original value. -/
theorem roundtrip_counterexample :
    serverParse (serverWrite ⟨["a b".data]⟩) ≠ ⟨["a b".data]⟩ := by
  have h1 : serverWrite ⟨["a b".data]⟩ = "a b".data := rfl
  have hsplit : "a b".data = "a".data ++ ' ' :: "b".data := by decide
  have h2 : splitWs "a b".data = ["a".data, "b".data] := by
    rw [hsplit, splitWs_token "a".data "b".data (by decide) (by decide),
      splitWs_single "b".data (by decide) (by decide)]
  unfold serverParse
  rw [h1, h2]
  decide

/-- **C6 (amended).** `parse(write(x)) == x` holds under each type's own
equality rule: unconditionally for `ContentLength` (over its `uint64_t`
range) and `ContentEncoding` (with `Unknown` serialized as "unknown");
for `Host` when the host text contains no `':'` and the port is the
absent-sentinel -1 or lies in `[0, 2^15)`; for `Server` when every token
is nonempty and whitespace-free; and for `ContentType` (suffix-
insensitive equality) when the top and sub components re-parse to
themselves and their text contains no `'/'` resp. `'+'` — in particular
for all components drawn from the closed token tables. -/
theorem roundtrip_amended :
    (∀ n : Nat, n < 2 ^ 64 →
      contentLengthParse (contentLengthWrite ⟨n⟩) = some ⟨n⟩)
    ∧ (∀ e : Encoding, contentEncodingParseRaw (contentEncodingWrite ⟨e⟩) = ⟨e⟩)
    ∧ (∀ (h : List Char) (p : Int), ':' ∉ h → (p = -1 ∨ (0 ≤ p ∧ p < 2 ^ 15)) →
      hostParse (hostWrite ⟨h, p⟩) = some ⟨h, p⟩)
    ∧ (∀ ts : List (List Char),
      (∀ t ∈ ts, t ≠ [] ∧ ∀ c ∈ t, c.isWhitespace = false) →
      serverParse (serverWrite ⟨ts⟩) = ⟨ts⟩)
    ∧ (∀ m : MediaTypeS, '/' ∉ printTypeS m.top →
      parseTypeS (printTypeS m.top) = m.top →
      '+' ∉ printSubtypeS m.sub →
      parseSubtypeS (printSubtypeS m.sub) = m.sub →
      contentTypeEq (contentTypeParseRaw (contentTypeWrite ⟨m⟩)) ⟨m⟩ = true) := by
  refine ⟨?_, encoding_roundtrip, hostParse_hostWrite, ?_, ?_⟩
  · intro n hn
    exact contentLengthParse_natRender n hn
  · intro ts h
    unfold serverParse serverWrite
    rw [splitWs_joinSpace ts h]
  · intro m h1 h2 h3 h4
    exact mediaTypeS_roundtrip m h1 h2 h3 h4

/-- Witness for the amended C6 at concrete inputs: 12345, the encoding
set, example.com:8080, the token list ["foo/1.0", "bar/2.0"] and the
media type application/json. -/
theorem roundtrip_amended_witness :
    (12345 < 2 ^ 64
      ∧ contentLengthParse (contentLengthWrite ⟨12345⟩) = some ⟨12345⟩)
    ∧ contentEncodingParseRaw (contentEncodingWrite ⟨.Gzip⟩) = ⟨.Gzip⟩
    ∧ hostParse (hostWrite ⟨"example.com".data, 8080⟩)
        = some ⟨"example.com".data, 8080⟩
    ∧ serverParse (serverWrite ⟨["foo/1.0".data, "bar/2.0".data]⟩)
        = ⟨["foo/1.0".data, "bar/2.0".data]⟩
    ∧ contentTypeEq
        (contentTypeParseRaw (contentTypeWrite ⟨⟨.Application, .Json, .None⟩⟩))
        ⟨⟨.Application, .Json, .None⟩⟩ = true :=
  ⟨⟨by decide, roundtrip_amended.1 12345 (by decide)⟩,
   roundtrip_amended.2.1 .Gzip,
   roundtrip_amended.2.2.1 "example.com".data 8080 (by decide)
     (Or.inr ⟨by decide, by decide⟩),
   roundtrip_amended.2.2.2.1 ["foo/1.0".data, "bar/2.0".data] (by decide),
   roundtrip_amended.2.2.2.2 ⟨.Application, .Json, .None⟩
     (by decide) (by decide) (by decide) (by decide)⟩

end Pistache
